import Mathlib

/-!
Verification of the Lovebirds real-time chat backend's messaging session core,
shallowly embedded from `src/backend/src/sockets/index.js` (the socket handler
registered by `server.js`).  User ids and other JS strings are modelled as
`List Char`; times are naturals (milliseconds); the Mongo message collection is
a Lean list of message records; the socket.io side effects are an explicit list
of emitted events.
-/

namespace Lovebirds

/-- A JS string, modelled as its list of characters. -/
abbrev JStr := List Char

/-- A user id (a Mongo ObjectId rendered as a string in the handler). -/
abbrev UserId := JStr

/-- JS `a <= b` on strings: lexicographic comparison by character code units.
Used by `Array.prototype.sort()` on a two-element array of ids. -/
def jsLE : JStr → JStr → Bool
  | [], _ => true
  | _ :: _, [] => false
  | a :: as, b :: bs =>
    if a.toNat < b.toNat then true
    else if b.toNat < a.toNat then false
    else jsLE as bs

/-- `getChatId` from sockets/index.js line 11:
`(userA, userB) => [userA, userB].sort().join('_')`.
On a two-element array, JS default sort orders the two strings
lexicographically, so the result is the smaller id, `'_'`, the larger id. -/
def getChatId (userA userB : JStr) : JStr :=
  if jsLE userA userB then userA ++ '_' :: userB else userB ++ '_' :: userA

/-- JS `chatId.split('_')` specialised to the single-character separator. -/
def splitOnUnderscore : JStr → List JStr
  | [] => [[]]
  | c :: cs =>
    if c = '_' then [] :: splitOnUnderscore cs
    else
      match splitOnUnderscore cs with
      | [] => [[c]]
      | w :: ws => (c :: w) :: ws

/-- `isUserInChat` from sockets/index.js lines 13-16:
split the chat id on `'_'` and test membership of the user id. -/
def isUserInChat (chatId : JStr) (userId : UserId) : Bool :=
  (splitOnUnderscore chatId).contains userId

theorem jsLE_total (a b : JStr) : jsLE a b = true ∨ jsLE b a = true := by
  induction a generalizing b with
  | nil => exact .inl rfl
  | cons c cs ih =>
    cases b with
    | nil => exact .inr rfl
    | cons d ds =>
      by_cases h1 : c.toNat < d.toNat
      · left; simp [jsLE, h1]
      · by_cases h2 : d.toNat < c.toNat
        · right; simp [jsLE, h2]
        · rcases ih ds with h | h
          · left; simp [jsLE, h1, h2, h]
          · right; simp [jsLE, h1, h2, h]

theorem jsLE_antisymm {a b : JStr} (hab : jsLE a b = true) (hba : jsLE b a = true) :
    a = b := by
  induction a generalizing b with
  | nil =>
    cases b with
    | nil => rfl
    | cons d ds => simp [jsLE] at hba
  | cons c cs ih =>
    cases b with
    | nil => simp [jsLE] at hab
    | cons d ds =>
      by_cases h1 : c.toNat < d.toNat
      · simp [jsLE, h1, Nat.lt_asymm h1, Nat.ne_of_lt h1] at hba
      · by_cases h2 : d.toNat < c.toNat
        · simp [jsLE, h1, h2] at hab
        · have hcd : c = d := Char.eq_of_val_eq (UInt32.ext
            (Nat.le_antisymm (Nat.le_of_not_lt h2) (Nat.le_of_not_lt h1)))
          subst hcd
          simp only [jsLE, h1, if_neg h1, if_neg h2, lt_self_iff_false, if_false] at hab hba
          rw [ih hab hba]

theorem getChatId_comm (a b : JStr) : getChatId a b = getChatId b a := by
  unfold getChatId
  by_cases hab : jsLE a b = true
  · by_cases hba : jsLE b a = true
    · have : a = b := jsLE_antisymm hab hba
      subst this; rfl
    · simp [hab, hba]
  · rcases jsLE_total a b with h | h
    · exact absurd h hab
    · simp [hab, h]

theorem splitOnUnderscore_ne_nil (l : JStr) : splitOnUnderscore l ≠ [] := by
  induction l with
  | nil => simp [splitOnUnderscore]
  | cons c cs ih =>
    by_cases h : c = '_'
    · simp [splitOnUnderscore, h]
    · simp only [splitOnUnderscore, if_neg h]
      cases hs : splitOnUnderscore cs with
      | nil => simp
      | cons w ws => simp

theorem splitOnUnderscore_no_sep {b : JStr} (hb : '_' ∉ b) :
    splitOnUnderscore b = [b] := by
  induction b with
  | nil => rfl
  | cons c cs ih =>
    have hc : c ≠ '_' := fun h => hb (h ▸ List.mem_cons_self c cs)
    have hcs : '_' ∉ cs := fun h => hb (List.mem_cons_of_mem c h)
    simp [splitOnUnderscore, hc, ih hcs]

theorem splitOnUnderscore_append {a : JStr} (b : JStr) (ha : '_' ∉ a) :
    splitOnUnderscore (a ++ '_' :: b) = a :: splitOnUnderscore b := by
  induction a with
  | nil => simp [splitOnUnderscore]
  | cons c cs ih =>
    have hc : c ≠ '_' := fun h => ha (h ▸ List.mem_cons_self c cs)
    have hcs : '_' ∉ cs := fun h => ha (List.mem_cons_of_mem c h)
    simp only [List.cons_append, splitOnUnderscore, if_neg hc, List.append_eq, ih hcs]

/-- Splitting the derived chat id recovers exactly the two participant ids
(in sorted order), provided neither id contains the separator. -/
theorem splitOnUnderscore_getChatId {a b : JStr} (ha : '_' ∉ a) (hb : '_' ∉ b) :
    splitOnUnderscore (getChatId a b) = [a, b] ∨
    splitOnUnderscore (getChatId a b) = [b, a] := by
  unfold getChatId
  by_cases h : jsLE a b = true
  · left
    simp only [h, if_true, splitOnUnderscore_append b ha, splitOnUnderscore_no_sep hb]
  · right
    have h' : jsLE a b = false := by
      cases hj : jsLE a b with
      | false => rfl
      | true => exact absurd hj h
    simp [h', splitOnUnderscore_append a hb, splitOnUnderscore_no_sep ha]

/-! ## Data model

Mirrors `src/backend/src/models/Message.js`, the `incognitoChats` entries of
the user record, and the module-level `userSockets` map of the socket handler.
-/

/-- One `incognitoChats` entry of a user record:
`{chatId, enabledAt, expiresAt}` (times in ms). -/
structure IncognitoChat where
  chatId : JStr
  enabledAt : Nat
  expiresAt : Nat
deriving Repr, DecidableEq

/-- The slice of the Mongo user document the session core reads and writes. -/
structure UserRec where
  id : UserId
  friends : List UserId
  blockedUsers : List UserId
  incognitoChats : List IncognitoChat
deriving Repr, DecidableEq

/-- A persisted message document (`models/Message.js`), restricted to the
fields the socket handler touches.  `content` is the payload (opaque here),
`createdAt` the Mongo timestamp, and the four delivery/read fields are as in
the schema (`isDelivered`/`isRead` Booleans, timestamps nullable). -/
structure Msg where
  id : Nat
  sender : UserId
  chatId : JStr
  messageType : JStr
  content : JStr
  createdAt : Nat
  isDelivered : Bool
  isRead : Bool
  deliveredAt : Option Nat
  readAt : Option Nat
deriving Repr, DecidableEq

/-- The whole mutable state the handlers act on: current time (ms), the user
collection, the message collection, the next Mongo id, the in-memory
`userSockets` registry (user id → socket id), and the pending `setTimeout`
deletions as (message id, fire time) pairs. -/
structure ServerState where
  time : Nat
  users : List UserRec
  messages : List Msg
  nextId : Nat
  userSockets : List (UserId × Nat)
  schedules : List (Nat × Nat)
deriving Repr, DecidableEq

/-- The shape in which `loadMessages` / `sendMessage` serialise a message for
the client (`messagesWithStatus` mapping in the handler). -/
structure MsgView where
  id : Nat
  sender : UserId
  chatId : JStr
  messageType : JStr
  content : JStr
  createdAt : Nat
  isDelivered : Bool
  isRead : Bool
  deliveredAt : Option Nat
  readAt : Option Nat
deriving Repr, DecidableEq

/-- `msg => ({...})` serialisation used by `loadMessages`
(the `|| false` on the flags is the JS default for missing fields). -/
def msgView (m : Msg) : MsgView :=
  ⟨m.id, m.sender, m.chatId, m.messageType, m.content, m.createdAt,
   m.isDelivered || false, m.isRead || false, m.deliveredAt, m.readAt⟩

/-- Where an emitted socket.io event is routed. -/
inductive Target where
  | self
  | room (chatId : JStr)
  | sock (sid : Nat)
deriving Repr, DecidableEq

/-- The socket.io events the modelled handlers emit. -/
inductive Event where
  | messagesLoaded (chatId : JStr) (msgs : List MsgView)
  | messagesLoadError (requiresFriendship : Bool) (isBlocked : Bool)
  | sendMessageError (tempId : Nat) (requiresFriendship : Bool) (isBlocked : Bool)
  | receiveMessage (chatId : JStr) (mid : Nat) (tempId : Nat)
  | newMessageForSidebar (mid : Nat) (isForReceiver : Bool)
  | emailNotify (receiverId : UserId)
  | messageSent (mid : Nat) (tempId : Nat) (isDelivered : Bool) (deliveredAt : Option Nat)
  | messageDelivered (mid : Nat) (deliveredAt : Option Nat) (chatId : JStr)
  | messageRead (mid : Nat) (readAt : Option Nat) (chatId : JStr) (readBy : UserId)
  | chatRead (chatId : JStr) (readCount : Nat) (readBy : UserId)
  | chatCleared (chatId : JStr)
  | chatClearSuccess (chatId : JStr)
  | incognitoEnabled (chatId : JStr) (expiresAt : Nat)
  | incognitoDisabled (chatId : JStr)
  | incognitoError
  | typingSignal (userId : UserId) (userName : JStr) (chatId : JStr)
  | stopTypingSignal (userId : UserId) (chatId : JStr)
deriving Repr, DecidableEq

/-- A routed emission. -/
structure Emit where
  target : Target
  event : Event
deriving Repr, DecidableEq

/-! ## Store and registry helpers -/

/-- `User.findById`. -/
def findUser (users : List UserRec) (uid : UserId) : Option UserRec :=
  users.find? (fun u => u.id == uid)

/-- Persisting an updated user document (`user.save()` /
`User.findByIdAndUpdate`): replace the document with that id. -/
def updateUser (users : List UserRec) (uid : UserId) (f : UserRec → UserRec) :
    List UserRec :=
  users.map (fun u => if u.id == uid then f u else u)

/-- `userSockets.get(uid)`. -/
def lookupSocket (socks : List (UserId × Nat)) (uid : UserId) : Option Nat :=
  (socks.find? (fun p => p.1 == uid)).map Prod.snd

/-- `areUsersFriends` (sockets/index.js lines 18-21): the requester's own
friend list is consulted. -/
def areUsersFriends (users : List UserRec) (userId1 userId2 : UserId) : Bool :=
  match findUser users userId1 with
  | some u => u.friends.contains userId2
  | none => false

/-- `isUserBlocked` (sockets/index.js lines 23-26). -/
def isUserBlocked (users : List UserRec) (userId otherUserId : UserId) : Bool :=
  match findUser users userId with
  | some u => u.blockedUsers.contains otherUserId
  | none => false

/-- Result of `getIncognitoStatus`. -/
structure IncogStatus where
  enabled : Bool
  expiresAt : Option Nat
deriving Repr, DecidableEq

/-- `getIncognitoStatus` (sockets/index.js lines 33-60).  Looks up the
requesting user's setting for the derived chat id; an expired entry is removed
from the user document (`user.save()`) and reported as disabled. -/
def getIncognitoStatus (users : List UserRec) (now : Nat)
    (userId otherUserId : UserId) : List UserRec × IncogStatus :=
  let chatId := getChatId userId otherUserId
  match findUser users userId with
  | none => (users, ⟨false, none⟩)
  | some u =>
    match u.incognitoChats.find? (fun ic => ic.chatId == chatId) with
    | none => (users, ⟨false, none⟩)
    | some ic =>
      if ic.expiresAt ≤ now then
        (updateUser users userId
          (fun v => {v with incognitoChats :=
            v.incognitoChats.filter (fun j => j.chatId != chatId)}), ⟨false, none⟩)
      else (users, ⟨true, some ic.expiresAt⟩)

/-! ## Session handlers (sockets/index.js) -/

/-- Insertion step for ascending `createdAt` order. -/
def insertByCreatedAt (m : Msg) : List Msg → List Msg
  | [] => [m]
  | x :: xs =>
    if m.createdAt ≤ x.createdAt then m :: x :: xs else x :: insertByCreatedAt m xs

/-- Mongo `.sort({ createdAt: 1 })`: ascending by creation time. -/
def sortByCreatedAt (l : List Msg) : List Msg :=
  l.foldr insertByCreatedAt []

/-- `Message.find({chatId}).sort({createdAt: 1})`: the conversation's
messages in ascending creation order. -/
def conversationAsc (st : ServerState) (chatId : JStr) : List Msg :=
  sortByCreatedAt (st.messages.filter (fun m => m.chatId == chatId))

/-- The `loadMessages` handler (sockets/index.js lines 597-652): friendship
check, two-sided block check, then
`Message.find({chatId}).sort({createdAt: 1}).limit(50)` serialised with
current status flags.  `.sort(asc).limit(50)` takes the FIRST 50 documents of
the ascending order, i.e. the oldest 50. -/
def loadMessages (st : ServerState) (userId otherUserId : UserId) :
    ServerState × List Emit :=
  let chatId := getChatId userId otherUserId
  if !areUsersFriends st.users userId otherUserId then
    (st, [⟨.self, .messagesLoadError true false⟩])
  else if isUserBlocked st.users userId otherUserId
       || isUserBlocked st.users otherUserId userId then
    (st, [⟨.self, .messagesLoadError false true⟩])
  else
    let msgs := (conversationAsc st chatId).take 50
    (st, [⟨.self, .messagesLoaded chatId (msgs.map msgView)⟩])

/-- The message document `Message.create` persists in `sendMessage`
(sockets/index.js lines 695-704). -/
def sentMsg (st : ServerState) (senderId receiverId : UserId)
    (content messageType : JStr) : Msg :=
  let isRecipientOnline := (lookupSocket st.userSockets receiverId).isSome
  { id := st.nextId, sender := senderId,
    chatId := getChatId senderId receiverId,
    messageType := messageType, content := content, createdAt := st.time,
    isDelivered := isRecipientOnline, isRead := false,
    deliveredAt := if isRecipientOnline then some st.time else none,
    readAt := none }

/-- The incognito hook at the end of `sendMessage` (lines 771-781): when the
sender's setting is enabled, `deleteAfterMs = expiresAt - now`; if positive, a
`setTimeout` deletion of the new message is armed, firing `deleteAfterMs`
after now. -/
def incognitoSchedules (schedules : List (Nat × Nat)) (now mid : Nat) :
    IncogStatus → List (Nat × Nat)
  | ⟨true, some e⟩ =>
    if 0 < e - now then schedules ++ [(mid, now + (e - now))] else schedules
  | _ => schedules

/-- The `sendMessage` handler (sockets/index.js lines 654-790): payload
validation, friendship check, two-sided block check, persistence with
delivery state from the registry, fan-out events, and the incognito
post-persist hook that schedules a `setTimeout` deletion firing
`deleteAfterMs = expiresAt - now` from now. -/
def sendMessage (st : ServerState) (senderId : UserId)
    (receiverId : Option UserId) (content : Option JStr)
    (tempId : Nat) (messageType : JStr) : ServerState × List Emit :=
  match receiverId, content with
  | none, _ => (st, [⟨.self, .sendMessageError tempId false false⟩])
  | some _, none => (st, [⟨.self, .sendMessageError tempId false false⟩])
  | some rid, some c =>
    if !areUsersFriends st.users senderId rid then
      (st, [⟨.self, .sendMessageError tempId true false⟩])
    else if isUserBlocked st.users senderId rid
         || isUserBlocked st.users rid senderId then
      (st, [⟨.self, .sendMessageError tempId false true⟩])
    else
      let chatId := getChatId senderId rid
      let rsock := lookupSocket st.userSockets rid
      let msg := sentMsg st senderId rid c messageType
      let st1 := { st with messages := st.messages ++ [msg],
                           nextId := st.nextId + 1 }
      let evs :=
        [⟨.room chatId, .receiveMessage chatId msg.id tempId⟩]
        ++ (match rsock with
            | some sid => [⟨.sock sid, .newMessageForSidebar msg.id true⟩]
            | none =>
              -- offline receiver: email the recipient (the schema makes
              -- `email` a required field, so any found user has one)
              if (findUser st1.users rid).isSome
              then [⟨.self, .emailNotify rid⟩] else [])
        ++ [⟨.self, .newMessageForSidebar msg.id false⟩,
            ⟨.self, .messageSent msg.id tempId msg.isDelivered msg.deliveredAt⟩]
        ++ (if rsock.isSome
            then [⟨.self, .messageDelivered msg.id msg.deliveredAt chatId⟩]
            else [])
      let gi := getIncognitoStatus st1.users st1.time senderId rid
      ({ st1 with users := gi.1,
                  schedules := incognitoSchedules st1.schedules st1.time msg.id gi.2 },
       evs)

/-- `Message.findByIdAndUpdate`: rewrite the (unique) document with this id;
on a list, the first hit. -/
def updateById (mid : Nat) (f : Msg → Msg) : List Msg → List Msg
  | [] => []
  | m :: ms => if m.id == mid then f m :: ms else m :: updateById mid f ms

/-- The `markMessageAsRead` handler (sockets/index.js lines 811-837):
participant check via `isUserInChat`, then an update guarded by
`if (!message.isRead)`. -/
def markMessageAsRead (st : ServerState) (userId : UserId) (mid : Nat) :
    ServerState × List Emit :=
  match st.messages.find? (fun m => m.id == mid) with
  | none => (st, [])
  | some m =>
    if !isUserInChat m.chatId userId then (st, [])
    else if m.isRead then (st, [])
    else
      let msgs := updateById mid
        (fun x => { x with isRead := true, readAt := some st.time }) st.messages
      ({ st with messages := msgs },
       [⟨.room m.chatId, .messageRead mid (some st.time) m.chatId userId⟩])

/-- The `markChatAsRead` handler (sockets/index.js lines 839-860):
`updateMany({chatId, sender: otherUserId, isRead: false}, {isRead, readAt})`,
then a `chatRead` broadcast when anything changed. -/
def markChatAsRead (st : ServerState) (userId otherUserId : UserId) :
    ServerState × List Emit :=
  let chatId := getChatId userId otherUserId
  let cond := fun (m : Msg) =>
    m.chatId == chatId && m.sender == otherUserId && !m.isRead
  let cnt := (st.messages.filter cond).length
  let msgs := st.messages.map (fun m =>
    if cond m then { m with isRead := true, readAt := some st.time } else m)
  ({ st with messages := msgs },
   if 0 < cnt then [⟨.room chatId, .chatRead chatId cnt userId⟩] else [])

/-- The Mongo query condition
`{$or: [{chatId: /_userId$/}, {chatId: /^userId_/}]}` used at connect time. -/
def chatIdMatchesUser (chatId : JStr) (userId : UserId) : Bool :=
  ('_' :: userId).isSuffixOf chatId || (userId ++ ['_']).isPrefixOf chatId

/-- Connect-time delivery marking (sockets/index.js lines 221-246): every
undelivered message addressed to the connecting user (query filters
`isDelivered: false`, `sender ≠ userId`) whose chat id contains the user is
marked delivered now; each sender currently online is notified. -/
def deliverOnConnect (st : ServerState) (userId : UserId) :
    ServerState × List Emit :=
  let cond := fun (m : Msg) =>
    chatIdMatchesUser m.chatId userId && !(m.sender == userId) && !m.isDelivered
  let targets := (st.messages.filter cond).filter
    (fun m => isUserInChat m.chatId userId)
  let msgs := st.messages.map (fun m =>
    if cond m && isUserInChat m.chatId userId
    then { m with isDelivered := true, deliveredAt := some st.time } else m)
  let evs := targets.filterMap (fun m =>
    match lookupSocket st.userSockets m.sender with
    | some sid =>
      some ⟨Target.sock sid, .messageDelivered m.id (some st.time) m.chatId⟩
    | none => none)
  ({ st with messages := msgs }, evs)

/-- The `clearChat` handler (sockets/index.js lines 862-876):
`Message.deleteMany({chatId})`, then `chatCleared` to the room and
`chatClearSuccess` to the requester. -/
def clearChat (st : ServerState) (userId otherUserId : UserId) :
    ServerState × List Emit :=
  let chatId := getChatId userId otherUserId
  ({ st with messages := st.messages.filter (fun m => !(m.chatId == chatId)) },
   [⟨.room chatId, .chatCleared chatId⟩, ⟨.self, .chatClearSuccess chatId⟩])

/-- The `toggleIncognito` handler (sockets/index.js lines 275-359).
Enable: `expiresAt = now + durationHours·3600000`; the user's prior entry for
this chat is filtered out and the new one pushed; every message currently in
the chat gets a `setTimeout` deletion firing `expiresAt - now` from now.
Disable: the entry is filtered out (already-scheduled deletions stand).
A missing user document makes the handler throw into its catch block,
which emits `incognitoError` and changes nothing. -/
def toggleIncognito (st : ServerState) (userId otherUserId : UserId)
    (enabled : Bool) (durationHours : Nat) : ServerState × List Emit :=
  let chatId := getChatId userId otherUserId
  match findUser st.users userId with
  | none => (st, [⟨.self, .incognitoError⟩])
  | some _ =>
    if enabled then
      let expiresAt := st.time + durationHours * 60 * 60 * 1000
      let users2 := updateUser st.users userId (fun u =>
        { u with incognitoChats :=
            (u.incognitoChats.filter (fun ic => ic.chatId != chatId))
            ++ [⟨chatId, st.time, expiresAt⟩] })
      let evs := [(⟨.self, .incognitoEnabled chatId expiresAt⟩ : Emit)]
        ++ (match lookupSocket st.userSockets otherUserId with
            | some sid => [⟨Target.sock sid, .incognitoEnabled chatId expiresAt⟩]
            | none => [])
      let existing := st.messages.filter (fun m => m.chatId == chatId)
      let deleteAfterMs := expiresAt - st.time
      let schedules2 := st.schedules
        ++ existing.map (fun m => (m.id, st.time + deleteAfterMs))
      ({ st with users := users2, schedules := schedules2 }, evs)
    else
      let users2 := updateUser st.users userId (fun u =>
        { u with incognitoChats :=
            u.incognitoChats.filter (fun ic => ic.chatId != chatId) })
      let evs := [(⟨.self, .incognitoDisabled chatId⟩ : Emit)]
        ++ (match lookupSocket st.userSockets otherUserId with
            | some sid => [⟨Target.sock sid, .incognitoDisabled chatId⟩]
            | none => [])
      ({ st with users := users2 }, evs)

/-- Inner loop of the cleanup sweep: walk one user's `incognitoChats`; each
entry with `expiresAt <= now` triggers `Message.deleteMany({chatId})` (a no-op
when the messages are already gone) and a `chatCleared` broadcast to the room. -/
def sweepEntries (now : Nat) (entries : List IncognitoChat)
    (msgs : List Msg) (evs : List Emit) : List Msg × List Emit :=
  match entries with
  | [] => (msgs, evs)
  | ic :: rest =>
    if ic.expiresAt ≤ now then
      sweepEntries now rest (msgs.filter (fun m => !(m.chatId == ic.chatId)))
        (evs ++ [⟨Target.room ic.chatId, .chatCleared ic.chatId⟩])
    else sweepEntries now rest msgs evs

/-- Outer loop of the cleanup sweep over the user collection; after a user's
entries are processed, the expired ones are dropped from the document
(`incognitoChats.filter(ic => expiresAt > now)` then `save()`).
The Mongo query restricts to users with a nonempty `incognitoChats`; for the
others both the inner loop and the filter do nothing, so walking every user is
the same. -/
def sweepUsers (now : Nat) (users : List UserRec)
    (msgs : List Msg) (evs : List Emit) : List UserRec × List Msg × List Emit :=
  match users with
  | [] => ([], msgs, evs)
  | u :: rest =>
    let p := sweepEntries now u.incognitoChats msgs evs
    let u2 := { u with incognitoChats :=
      u.incognitoChats.filter (fun ic => now < ic.expiresAt) }
    let q := sweepUsers now rest p.1 p.2
    (u2 :: q.1, q.2.1, q.2.2)

/-- `cleanupExpiredIncognitoChats` (sockets/index.js lines 82-126): the
periodic sweep enforcing expired incognito settings. -/
def cleanupExpiredIncognitoChats (st : ServerState) : ServerState × List Emit :=
  let r := sweepUsers st.time st.users st.messages []
  ({ st with users := r.1, messages := r.2.1 }, r.2.2)

/-- `setInterval(() => cleanupExpiredIncognitoChats(io), 5 * 60 * 1000)`
(sockets/index.js line 132): the sweep interval in milliseconds. -/
def sweepIntervalMs : Nat := 5 * 60 * 1000

/-- The `typing` handler of the registered socket module (sockets/index.js
lines 792-800): if the payload carries a `chatId`, broadcast a `typing` event
to that chat room; otherwise do nothing.  No registry lookup, no timer. -/
def typingHandler (st : ServerState) (userId : UserId) (userName : JStr)
    (chatId : Option JStr) : ServerState × List Emit :=
  match chatId with
  | none => (st, [])
  | some cid => (st, [⟨.room cid, .typingSignal userId userName cid⟩])

/-- The `stopTyping` handler (sockets/index.js lines 802-809): same shape. -/
def stopTypingHandler (st : ServerState) (userId : UserId)
    (chatId : Option JStr) : ServerState × List Emit :=
  match chatId with
  | none => (st, [])
  | some cid => (st, [⟨.room cid, .stopTypingSignal userId cid⟩])

/-- The operations of the message life cycle quantified over by the
flag-monotonicity invariant. -/
inductive Op where
  | send (senderId : UserId) (receiverId : Option UserId)
      (content : Option JStr) (tempId : Nat) (messageType : JStr)
  | markOneRead (userId : UserId) (mid : Nat)
  | markChat (userId : UserId) (otherUserId : UserId)
  | deliver (userId : UserId)

/-- State component of running one operation. -/
def step (st : ServerState) : Op → ServerState
  | .send s r c t mt => (sendMessage st s r c t mt).1
  | .markOneRead u m => (markMessageAsRead st u m).1
  | .markChat u o => (markChatAsRead st u o).1
  | .deliver u => (deliverOnConnect st u).1

/-! ## C4: conversation id derivation -/

/-- C4: for every pair of user ids the derived conversation id is symmetric —
`getChatId a b = getChatId b a` — and equals the two ids in lexicographically
sorted order joined with the fixed separator `'_'`.  `getChatId` is a plain
function of its two arguments, hence pure. -/
theorem conversation_id_symmetric_and_sorted (a b : JStr) :
    getChatId a b = getChatId b a ∧
    getChatId a b = (if jsLE a b then a ++ '_' :: b else b ++ '_' :: a) :=
  ⟨getChatId_comm a b, rfl⟩

/-! ## C10: membership round-trips the derivation -/

theorem contains_pair {x y u : JStr} :
    ([x, y].contains u = true) ↔ (u = x ∨ u = y) := by
  constructor
  · intro h
    have := List.elem_iff.mp h
    simpa using this
  · intro h
    apply List.elem_iff.mpr
    simpa using h

/-- C10: for underscore-free ids, `isUserInChat (getChatId a b) u` holds
exactly when `u` is one of the two participants: splitting the derived id on
`'_'` recovers the pair, so derivation and participant verification
round-trip. -/
theorem chat_membership_roundtrip (a b u : JStr)
    (ha : '_' ∉ a) (hb : '_' ∉ b) (hu : '_' ∉ u) :
    isUserInChat (getChatId a b) u = true ↔ u = a ∨ u = b := by
  unfold isUserInChat
  rcases splitOnUnderscore_getChatId ha hb with h | h <;> rw [h]
  · exact contains_pair
  · exact contains_pair.trans or_comm

/-- Witness for C10 at concrete underscore-free ids. -/
theorem chat_membership_roundtrip_witness :
    isUserInChat (getChatId ['a'] ['b']) ['b'] = true ↔
      (['b'] : JStr) = ['a'] ∨ (['b'] : JStr) = ['b'] :=
  chat_membership_roundtrip ['a'] ['b'] ['b']
    (by decide) (by decide) (by decide)

/-! ## C9: clearChat deletes exactly the derived conversation -/

/-- C9: `clearChat(otherUserId)` removes exactly the messages whose chat id
equals the id derived from the requester and `otherUserId`, leaves every
other message (and the rest of the state) unchanged, and emits `chatCleared`
to the conversation room followed by `chatClearSuccess` to the requester. -/
theorem clear_chat_exact_frame (st : ServerState) (userId otherUserId : UserId) :
    (∀ m : Msg, m ∈ (clearChat st userId otherUserId).1.messages ↔
       m ∈ st.messages ∧ m.chatId ≠ getChatId userId otherUserId) ∧
    (clearChat st userId otherUserId).2 =
      [⟨.room (getChatId userId otherUserId),
         .chatCleared (getChatId userId otherUserId)⟩,
       ⟨.self, .chatClearSuccess (getChatId userId otherUserId)⟩] ∧
    (clearChat st userId otherUserId).1.users = st.users ∧
    (clearChat st userId otherUserId).1.userSockets = st.userSockets ∧
    (clearChat st userId otherUserId).1.schedules = st.schedules := by
  refine ⟨fun m => ?_, rfl, rfl, rfl, rfl⟩
  simp [clearChat, List.mem_filter]

/-! ## C8: typing signals (corrected) -/

/-- A state with nobody connected: the peer `'b'` has no registry entry. -/
def exTypingState : ServerState := ⟨0, [], [], 0, [], []⟩

/-- C8 counterexample: the claim says a typing signal is unicast to the
peer's bound connection and is a no-op when the peer is offline.  In the
registered handler the payload carries a `chatId`, not a peer id; with peer
`'b'` offline (no registry entry) the handler still emits a `typing` event —
to the conversation room, not to any socket — so it is neither a unicast nor
a no-op, and no auto-stop timer state exists at all. -/
theorem typing_not_unicast_counterexample :
    lookupSocket exTypingState.userSockets ['b'] = none ∧
    (typingHandler exTypingState ['a'] ['A'] (some (getChatId ['a'] ['b']))).2 ≠ [] ∧
    (∀ e ∈ (typingHandler exTypingState ['a'] ['A']
        (some (getChatId ['a'] ['b']))).2,
      e.target = Target.room (getChatId ['a'] ['b'])) := by
  decide

/-- C8 amended: in the registered socket module, `typing` / `stopTyping`
carry a `chatId` and are broadcast to that conversation room regardless of
whether the peer is online; a payload without a `chatId` is ignored; no
server-side auto-stop timer is armed (the unicast-with-3-second-auto-stop
behaviour exists only in the unused duplicate handler `src/unnamed/part_004`). -/
theorem typing_room_broadcast (st : ServerState) (uid : UserId)
    (uname : JStr) (cid : JStr) :
    typingHandler st uid uname (some cid) =
      (st, [⟨.room cid, .typingSignal uid uname cid⟩]) ∧
    typingHandler st uid uname none = (st, []) ∧
    stopTypingHandler st uid (some cid) =
      (st, [⟨.room cid, .stopTypingSignal uid cid⟩]) ∧
    stopTypingHandler st uid none = (st, []) :=
  ⟨rfl, rfl, rfl, rfl⟩

/-! ## C1: authorization denials mutate nothing -/

/-- C1: a `sendMessage` or `loadMessages` request between users who are not
friends, or where either has blocked the other, is refused with a typed
denial — `sendMessageError` / `messagesLoadError` with `requiresFriendship`
for the friendship failure and `isBlocked` for a block, `sendMessageError`
carrying the original `tempId` — the state is returned unchanged, so no
message record is created and nothing stored is mutated. -/
theorem authorization_denied_no_mutation (st : ServerState)
    (senderId otherUserId : UserId) (c : JStr) (tempId : Nat) (mt : JStr) :
    (areUsersFriends st.users senderId otherUserId = false →
      sendMessage st senderId (some otherUserId) (some c) tempId mt =
        (st, [⟨.self, .sendMessageError tempId true false⟩]) ∧
      loadMessages st senderId otherUserId =
        (st, [⟨.self, .messagesLoadError true false⟩])) ∧
    (areUsersFriends st.users senderId otherUserId = true →
      (isUserBlocked st.users senderId otherUserId = true ∨
       isUserBlocked st.users otherUserId senderId = true) →
      sendMessage st senderId (some otherUserId) (some c) tempId mt =
        (st, [⟨.self, .sendMessageError tempId false true⟩]) ∧
      loadMessages st senderId otherUserId =
        (st, [⟨.self, .messagesLoadError false true⟩])) := by
  constructor
  · intro h
    exact ⟨by simp [sendMessage, h], by simp [loadMessages, h]⟩
  · intro h hb
    have hb2 : (isUserBlocked st.users senderId otherUserId
        || isUserBlocked st.users otherUserId senderId) = true := by
      rcases hb with hb | hb <;> simp [hb]
    exact ⟨by simp [sendMessage, h, hb2], by simp [loadMessages, h, hb2]⟩

/-- Two non-friends. -/
def exNotFriends : ServerState :=
  ⟨0, [⟨['a'], [], [], []⟩, ⟨['b'], [], [], []⟩], [], 0, [], []⟩

/-- Friends, but `'a'` has blocked `'b'`. -/
def exBlocked : ServerState :=
  ⟨0, [⟨['a'], [['b']], [['b']], []⟩, ⟨['b'], [['a']], [], []⟩], [], 0, [], []⟩

/-- Witness for C1: a concrete non-friends send and a concrete blocked load
are both refused with the corresponding typed reason and an unchanged state. -/
theorem authorization_denied_no_mutation_witness :
    sendMessage exNotFriends ['a'] (some ['b']) (some ['h']) 5 ['t'] =
      (exNotFriends, [⟨.self, .sendMessageError 5 true false⟩]) ∧
    loadMessages exBlocked ['a'] ['b'] =
      (exBlocked, [⟨.self, .messagesLoadError false true⟩]) :=
  ⟨((authorization_denied_no_mutation exNotFriends ['a'] ['b'] ['h'] 5
      ['t']).1 (by decide)).1,
   ((authorization_denied_no_mutation exBlocked ['a'] ['b'] ['h'] 5
      ['t']).2 (by decide) (Or.inl (by decide))).2⟩

/-! ## C2: delivery state at creation -/

/-- C2: a `sendMessage` that passes validation and authorization appends
exactly one message; it has `isDelivered = true` and `deliveredAt = now`
iff the receiver has an entry in the connection registry at send time,
otherwise `isDelivered = false` and `deliveredAt = null`; in both cases
`isRead = false` and `readAt = null`. -/
theorem send_delivery_state (st : ServerState) (senderId rid : UserId)
    (c : JStr) (tempId : Nat) (mt : JStr)
    (hf : areUsersFriends st.users senderId rid = true)
    (hb1 : isUserBlocked st.users senderId rid = false)
    (hb2 : isUserBlocked st.users rid senderId = false) :
    (sendMessage st senderId (some rid) (some c) tempId mt).1.messages =
      st.messages ++ [sentMsg st senderId rid c mt] ∧
    ((sentMsg st senderId rid c mt).isDelivered = true ↔
      (lookupSocket st.userSockets rid).isSome = true) ∧
    ((sentMsg st senderId rid c mt).deliveredAt ≠ none ↔
      (lookupSocket st.userSockets rid).isSome = true) ∧
    ((lookupSocket st.userSockets rid).isSome = true →
      (sentMsg st senderId rid c mt).deliveredAt = some st.time) ∧
    ((lookupSocket st.userSockets rid).isSome = false →
      (sentMsg st senderId rid c mt).isDelivered = false ∧
      (sentMsg st senderId rid c mt).deliveredAt = none) ∧
    (sentMsg st senderId rid c mt).isRead = false ∧
    (sentMsg st senderId rid c mt).readAt = none := by
  refine ⟨by simp [sendMessage, hf, hb1, hb2], ?_, ?_, ?_, ?_, rfl, rfl⟩
  all_goals
    cases h : (lookupSocket st.userSockets rid).isSome <;> simp [sentMsg, h]

/-- Friends, nobody blocked, receiver `'b'` online on socket 7. -/
def exFriendsOnline : ServerState :=
  ⟨100, [⟨['a'], [['b']], [], []⟩, ⟨['b'], [['a']], [], []⟩], [], 0,
   [(['b'], 7)], []⟩

/-- Witness for C2 at a concrete authorized send to an online receiver. -/
theorem send_delivery_state_witness :
    (sendMessage exFriendsOnline ['a'] (some ['b']) (some ['h']) 5
        ['t']).1.messages =
      exFriendsOnline.messages ++ [sentMsg exFriendsOnline ['a'] ['b'] ['h'] ['t']] ∧
    (sentMsg exFriendsOnline ['a'] ['b'] ['h'] ['t']).isDelivered = true := by
  have h := send_delivery_state exFriendsOnline ['a'] ['b'] ['h'] 5 ['t']
    (by decide) (by decide) (by decide)
  exact ⟨h.1, h.2.1.mpr (by decide)⟩

/-! ## C7: loadMessages ordering and cap (corrected) -/

theorem mem_insertByCreatedAt {m x : Msg} {l : List Msg} :
    x ∈ insertByCreatedAt m l ↔ x = m ∨ x ∈ l := by
  induction l with
  | nil => simp [insertByCreatedAt]
  | cons y ys ih =>
    by_cases h : m.createdAt ≤ y.createdAt
    · simp [insertByCreatedAt, h]
    · simp only [insertByCreatedAt, if_neg h, List.mem_cons, ih]
      tauto

theorem mem_sortByCreatedAt {x : Msg} {l : List Msg} :
    x ∈ sortByCreatedAt l ↔ x ∈ l := by
  induction l with
  | nil => simp [sortByCreatedAt]
  | cons y ys ih =>
    rw [show sortByCreatedAt (y :: ys) =
          insertByCreatedAt y (sortByCreatedAt ys) from rfl,
        mem_insertByCreatedAt, ih, List.mem_cons]

theorem sorted_insertByCreatedAt {m : Msg} {l : List Msg}
    (h : List.Pairwise (fun a b : Msg => a.createdAt ≤ b.createdAt) l) :
    List.Pairwise (fun a b : Msg => a.createdAt ≤ b.createdAt)
      (insertByCreatedAt m l) := by
  induction l with
  | nil => simp [insertByCreatedAt]
  | cons y ys ih =>
    rcases List.pairwise_cons.mp h with ⟨hy, hys⟩
    by_cases hm : m.createdAt ≤ y.createdAt
    · rw [show insertByCreatedAt m (y :: ys) = m :: y :: ys from by
        simp [insertByCreatedAt, hm]]
      refine List.pairwise_cons.mpr ⟨?_, h⟩
      intro z hz
      rcases List.mem_cons.mp hz with rfl | hz
      · exact hm
      · exact le_trans hm (hy z hz)
    · rw [show insertByCreatedAt m (y :: ys) = y :: insertByCreatedAt m ys from by
        simp [insertByCreatedAt, hm]]
      refine List.pairwise_cons.mpr ⟨?_, ih hys⟩
      intro z hz
      rcases mem_insertByCreatedAt.mp hz with rfl | hz
      · exact le_of_not_le hm
      · exact hy z hz

theorem sorted_sortByCreatedAt (l : List Msg) :
    List.Pairwise (fun a b : Msg => a.createdAt ≤ b.createdAt)
      (sortByCreatedAt l) := by
  induction l with
  | nil => simp [sortByCreatedAt]
  | cons y ys ih => exact sorted_insertByCreatedAt ih

/-- 51 pairwise-distinct messages of the `'a'`/`'b'` conversation, message
`i` created at time `i`. -/
def exMsg (i : Nat) : Msg :=
  ⟨i, ['a'], getChatId ['a'] ['b'], ['t'], ['x'], i, false, false, none, none⟩

/-- Friends `'a'` and `'b'` with 51 persisted messages. -/
def exManyMessages : ServerState :=
  ⟨1000, [⟨['a'], [['b']], [], []⟩, ⟨['b'], [['a']], [], []⟩],
   (List.range 51).map exMsg, 51, [], []⟩

/-- Extract the view list from a successful `loadMessages` result. -/
def loadedViews (r : ServerState × List Emit) : List MsgView :=
  match r.2 with
  | [⟨_, .messagesLoaded _ vs⟩] => vs
  | _ => []

/-- C7 counterexample: the claim says the result is capped at the MOST RECENT
50 messages of the conversation.  With 51 messages, the handler's
`.sort({createdAt: 1}).limit(50)` returns the first 50 of the ascending
order — the oldest 50 — so the newest message (creation time 50, later than
every other) is missing from the 50 returned views. -/
theorem load_messages_oldest50_counterexample :
    exMsg 50 ∈ exManyMessages.messages ∧
    (∀ m ∈ exManyMessages.messages, m.createdAt ≤ (exMsg 50).createdAt) ∧
    (loadedViews (loadMessages exManyMessages ['a'] ['b'])).length = 50 ∧
    msgView (exMsg 50) ∉ loadedViews (loadMessages exManyMessages ['a'] ['b']) := by
  decide

/-- C7 amended: for every `loadMessages` that passes authorization, the
result is the conversation's messages in ascending creation order capped at
the FIRST (oldest) 50 of that order, each view carrying the message's current
`isDelivered`/`isRead` flags and `deliveredAt`/`readAt` timestamps. -/
theorem load_messages_first50_ascending (st : ServerState)
    (userId otherUserId : UserId)
    (hf : areUsersFriends st.users userId otherUserId = true)
    (hb1 : isUserBlocked st.users userId otherUserId = false)
    (hb2 : isUserBlocked st.users otherUserId userId = false) :
    (loadMessages st userId otherUserId).2 =
      [⟨.self, .messagesLoaded (getChatId userId otherUserId)
        (((conversationAsc st (getChatId userId otherUserId)).take 50).map
          msgView)⟩] ∧
    List.Pairwise (fun a b : Msg => a.createdAt ≤ b.createdAt)
      (conversationAsc st (getChatId userId otherUserId)) ∧
    (∀ m : Msg,
      m ∈ conversationAsc st (getChatId userId otherUserId) ↔
      m ∈ st.messages ∧ m.chatId = getChatId userId otherUserId) ∧
    (((conversationAsc st (getChatId userId otherUserId)).take 50).map
      msgView).length ≤ 50 ∧
    (∀ m : Msg, (msgView m).isDelivered = m.isDelivered ∧
      (msgView m).isRead = m.isRead ∧
      (msgView m).deliveredAt = m.deliveredAt ∧
      (msgView m).readAt = m.readAt) := by
  refine ⟨by simp [loadMessages, hf, hb1, hb2], sorted_sortByCreatedAt _,
    fun m => ?_, ?_, fun m => by simp [msgView]⟩
  · rw [conversationAsc, mem_sortByCreatedAt, List.mem_filter, beq_iff_eq]
  · rw [List.length_map, List.length_take]
    exact min_le_left _ _

/-- Witness for the amended C7 at a concrete authorized load. -/
theorem load_messages_first50_ascending_witness :
    (loadMessages exFriendsOnline ['a'] ['b']).2 =
      [⟨.self, .messagesLoaded (getChatId ['a'] ['b'])
        (((conversationAsc exFriendsOnline (getChatId ['a'] ['b'])).take 50).map
          msgView)⟩] ∧
    List.Pairwise (fun a b : Msg => a.createdAt ≤ b.createdAt)
      (conversationAsc exFriendsOnline (getChatId ['a'] ['b'])) := by
  have h := load_messages_first50_ascending exFriendsOnline ['a'] ['b']
    (by decide) (by decide) (by decide)
  exact ⟨h.1, h.2.1⟩

/-! ## C3: delivery/read flags are monotonic, timestamps written once -/

/-- The per-message invariant tying each flag to its timestamp:
`deliveredAt`/`readAt` are set iff the corresponding flag is true. -/
def flagInv (m : Msg) : Prop :=
  (m.isDelivered = true ↔ m.deliveredAt ≠ none) ∧
  (m.isRead = true ↔ m.readAt ≠ none)

/-- One step of evolution of a single message record: flags only go
false→true, and a timestamp never changes once its flag is true (nor while
the flag stays false), so each timestamp is written at most once, on the
transition. -/
def monoMsg (m m2 : Msg) : Prop :=
  (m.isDelivered = true → m2.isDelivered = true ∧ m2.deliveredAt = m.deliveredAt) ∧
  (m.isRead = true → m2.isRead = true ∧ m2.readAt = m.readAt) ∧
  (m2.isDelivered = false → m2.deliveredAt = m.deliveredAt) ∧
  (m2.isRead = false → m2.readAt = m.readAt)

theorem monoMsg_refl (m : Msg) : monoMsg m m :=
  ⟨fun h => ⟨h, rfl⟩, fun h => ⟨h, rfl⟩, fun _ => rfl, fun _ => rfl⟩

theorem monoMsg_setRead {x : Msg} (h : x.isRead = false) (t : Option Nat) :
    monoMsg x { x with isRead := true, readAt := t } := by
  refine ⟨fun hd => ⟨hd, rfl⟩, fun hr => ?_, fun _ => rfl, fun hr => ?_⟩
  · rw [h] at hr; cases hr
  · simp at hr

theorem monoMsg_setDelivered {x : Msg} (h : x.isDelivered = false) (t : Option Nat) :
    monoMsg x { x with isDelivered := true, deliveredAt := t } := by
  refine ⟨fun hd => ?_, fun hr => ⟨hr, rfl⟩, fun hd => ?_, fun _ => rfl⟩
  · rw [h] at hd; cases hd
  · simp at hd

theorem flagInv_setRead {y : Msg} (h : flagInv y) (t0 : Nat) :
    flagInv { y with isRead := true, readAt := some t0 } :=
  ⟨h.1, by simp⟩

theorem flagInv_setDelivered {y : Msg} (h : flagInv y) (t0 : Nat) :
    flagInv { y with isDelivered := true, deliveredAt := some t0 } :=
  ⟨by simp, h.2⟩

theorem flagInv_sentMsg (st : ServerState) (s rid : UserId) (c mt : JStr) :
    flagInv (sentMsg st s rid c mt) := by
  unfold flagInv sentMsg
  cases h : (lookupSocket st.userSockets rid).isSome <;> simp [h]

theorem forall2_monoMsg_refl (l : List Msg) : List.Forall₂ monoMsg l l := by
  induction l with
  | nil => exact List.Forall₂.nil
  | cons x xs ih => exact List.Forall₂.cons (monoMsg_refl x) ih

theorem forall2_monoMsg_map {l : List Msg} {f : Msg → Msg}
    (h : ∀ x ∈ l, monoMsg x (f x)) : List.Forall₂ monoMsg l (l.map f) := by
  induction l with
  | nil => exact List.Forall₂.nil
  | cons x xs ih =>
    rw [List.map_cons]
    exact List.Forall₂.cons (h x (List.mem_cons_self x xs))
      (ih fun y hy => h y (List.mem_cons_of_mem x hy))

theorem forall2_monoMsg_map_take {l : List Msg} {f : Msg → Msg}
    (h : ∀ x ∈ l, monoMsg x (f x)) :
    List.Forall₂ monoMsg l ((l.map f).take l.length) := by
  rw [← List.length_map l f, List.take_length]
  exact forall2_monoMsg_map h

theorem updateById_cons_pos {y : Msg} {ys : List Msg} {mid : Nat}
    {f : Msg → Msg} (hy : (y.id == mid) = true) :
    updateById mid f (y :: ys) = f y :: ys := by
  simp [updateById, hy]

theorem updateById_cons_neg {y : Msg} {ys : List Msg} {mid : Nat}
    {f : Msg → Msg} (hy : ¬(y.id == mid) = true) :
    updateById mid f (y :: ys) = y :: updateById mid f ys := by
  simp [updateById, hy]

theorem forall2_monoMsg_updateById {l : List Msg} {mid : Nat}
    {f : Msg → Msg} {m : Msg}
    (hfind : l.find? (fun x => x.id == mid) = some m)
    (hm : monoMsg m (f m)) :
    List.Forall₂ monoMsg l (updateById mid f l) := by
  induction l with
  | nil => simp at hfind
  | cons y ys ih =>
    by_cases hy : (y.id == mid) = true
    · rw [List.find?_cons_of_pos (p := fun x => x.id == mid) ys hy] at hfind
      injection hfind with hfind
      subst hfind
      rw [updateById_cons_pos hy]
      exact List.Forall₂.cons hm (forall2_monoMsg_refl ys)
    · rw [List.find?_cons_of_neg (p := fun x => x.id == mid) ys hy] at hfind
      rw [updateById_cons_neg hy]
      exact List.Forall₂.cons (monoMsg_refl y) (ih hfind)

theorem mem_updateById {l : List Msg} {mid : Nat} {f : Msg → Msg} {x : Msg}
    (hx : x ∈ updateById mid f l) : x ∈ l ∨ ∃ y, y ∈ l ∧ x = f y := by
  induction l with
  | nil => simp [updateById] at hx
  | cons y ys ih =>
    by_cases hy : (y.id == mid) = true
    · rw [updateById_cons_pos hy] at hx
      rcases List.mem_cons.mp hx with rfl | hx
      · exact Or.inr ⟨y, List.mem_cons_self y ys, rfl⟩
      · exact Or.inl (List.mem_cons_of_mem y hx)
    · rw [updateById_cons_neg hy] at hx
      rcases List.mem_cons.mp hx with rfl | hx
      · exact Or.inl (List.mem_cons_self x ys)
      · rcases ih hx with h | ⟨z, hz, rfl⟩
        · exact Or.inl (List.mem_cons_of_mem y h)
        · exact Or.inr ⟨z, List.mem_cons_of_mem y hz, rfl⟩

theorem length_updateById (mid : Nat) (f : Msg → Msg) (l : List Msg) :
    (updateById mid f l).length = l.length := by
  induction l with
  | nil => rfl
  | cons y ys ih => by_cases hy : (y.id == mid) = true <;>
      simp [updateById, hy, ih]

/-- Every branch of `sendMessage` either leaves the message collection alone
(validation/authorization failure) or appends exactly the created message. -/
theorem sendMessage_messages_shape (st : ServerState) (s : UserId)
    (r : Option UserId) (c : Option JStr) (t : Nat) (mt : JStr) :
    (sendMessage st s r c t mt).1.messages = st.messages ∨
    ∃ rid cc, r = some rid ∧ c = some cc ∧
      (sendMessage st s r c t mt).1.messages =
        st.messages ++ [sentMsg st s rid cc mt] := by
  rcases r with _ | rid
  · exact Or.inl rfl
  rcases c with _ | cc
  · exact Or.inl rfl
  by_cases hf : areUsersFriends st.users s rid = true
  · by_cases hb : (isUserBlocked st.users s rid
        || isUserBlocked st.users rid s) = true
    · exact Or.inl (by simp [sendMessage, hf, hb])
    · have hb2 : (isUserBlocked st.users s rid
          || isUserBlocked st.users rid s) = false := by
        simpa using hb
      exact Or.inr ⟨rid, cc, rfl, rfl, by simp [sendMessage, hf, hb2]⟩
  · have hf2 : areUsersFriends st.users s rid = false := by simpa using hf
    exact Or.inl (by simp [sendMessage, hf2])

/-- C3: across send, markMessageAsRead, markChatAsRead and connect-time
delivery marking, (1) the flag/timestamp invariant (`deliveredAt`/`readAt`
set iff the flag is true) is preserved, (2) every pre-existing message
evolves monotonically — `isDelivered`/`isRead` only go false→true and each
timestamp is written at most once, on its first transition, never rewritten
afterwards — and (3) marking an already-read message as read again returns
the state unchanged and emits nothing. -/
theorem message_flags_monotone_once (st : ServerState) (op : Op) :
    ((∀ m ∈ st.messages, flagInv m) →
      ∀ m2 ∈ (step st op).messages, flagInv m2) ∧
    List.Forall₂ monoMsg st.messages
      ((step st op).messages.take st.messages.length) ∧
    (∀ (userId : UserId) (mid : Nat) (m : Msg),
      st.messages.find? (fun x => x.id == mid) = some m → m.isRead = true →
      markMessageAsRead st userId mid = (st, [])) := by
  refine ⟨?_, ?_, ?_⟩
  · -- (1) flag/timestamp invariant preservation
    intro hall m2 hm2
    cases op with
    | send s r c t mt =>
      simp only [step] at hm2
      rcases sendMessage_messages_shape st s r c t mt with h | ⟨rid, cc, _, _, h⟩
      · rw [h] at hm2; exact hall m2 hm2
      · rw [h] at hm2
        rcases List.mem_append.mp hm2 with hm2 | hm2
        · exact hall m2 hm2
        · rcases List.mem_singleton.mp hm2 with rfl
          exact flagInv_sentMsg st s rid cc mt
    | markOneRead u mid =>
      simp only [step, markMessageAsRead] at hm2
      cases hfind : st.messages.find? (fun x => x.id == mid) with
      | none => rw [hfind] at hm2; exact hall m2 hm2
      | some m =>
        rw [hfind] at hm2
        cases hin : isUserInChat m.chatId u with
        | false => simp only [hin] at hm2; exact hall m2 (by simpa using hm2)
        | true =>
          cases hread : m.isRead with
          | true => simp only [hin, hread] at hm2; exact hall m2 (by simpa using hm2)
          | false =>
            simp only [hin, hread] at hm2
            rcases mem_updateById (by simpa using hm2) with h | ⟨y, hy, rfl⟩
            · exact hall m2 h
            · exact flagInv_setRead (hall y hy) st.time
    | markChat u o =>
      simp only [step, markChatAsRead] at hm2
      rcases List.mem_map.mp hm2 with ⟨x, hx, rfl⟩
      dsimp only
      split
      · exact flagInv_setRead (hall x hx) st.time
      · exact hall x hx
    | deliver u =>
      simp only [step, deliverOnConnect] at hm2
      rcases List.mem_map.mp hm2 with ⟨x, hx, rfl⟩
      dsimp only
      split
      · exact flagInv_setDelivered (hall x hx) st.time
      · exact hall x hx
  · -- (2) monotone evolution of pre-existing messages
    cases op with
    | send s r c t mt =>
      simp only [step]
      rcases sendMessage_messages_shape st s r c t mt with h | ⟨rid, cc, _, _, h⟩
      · rw [h, List.take_length]
        exact forall2_monoMsg_refl _
      · rw [h, List.take_left]
        exact forall2_monoMsg_refl _
    | markOneRead u mid =>
      simp only [step, markMessageAsRead]
      cases hfind : st.messages.find? (fun x => x.id == mid) with
      | none =>
        dsimp only
        rw [List.take_length]
        exact forall2_monoMsg_refl _
      | some m =>
        dsimp only
        cases hin : isUserInChat m.chatId u with
        | false =>
          rw [if_pos (by simp [hin])]
          dsimp only
          rw [List.take_length]
          exact forall2_monoMsg_refl _
        | true =>
          cases hread : m.isRead with
          | true =>
            rw [if_neg (by simp [hin]), if_pos rfl]
            dsimp only
            rw [List.take_length]
            exact forall2_monoMsg_refl _
          | false =>
            rw [if_neg (by simp [hin]), if_neg (by simp [hread])]
            dsimp only
            have hupd := forall2_monoMsg_updateById
              (f := fun x => { x with isRead := true, readAt := some st.time })
              hfind (monoMsg_setRead hread (some st.time))
            have hlen := length_updateById mid
              (fun x => { x with isRead := true, readAt := some st.time })
              st.messages
            rw [← hlen, List.take_length]
            exact hupd
    | markChat u o =>
      simp only [step, markChatAsRead]
      dsimp only
      refine forall2_monoMsg_map_take fun x hx => ?_
      dsimp only
      split
      · next hc =>
          refine monoMsg_setRead ?_ _
          simp only [Bool.and_eq_true] at hc
          simpa using hc.2
      · exact monoMsg_refl x
    | deliver u =>
      simp only [step, deliverOnConnect]
      dsimp only
      refine forall2_monoMsg_map_take fun x hx => ?_
      dsimp only
      split
      · next hc =>
          refine monoMsg_setDelivered ?_ _
          simp only [Bool.and_eq_true, decide_eq_true_eq] at hc
          simpa using hc.1.2
      · exact monoMsg_refl x
  · -- (3) re-marking an already-read message is a complete no-op
    intro userId mid m hfind hread
    unfold markMessageAsRead
    rw [hfind]
    cases hin : isUserInChat m.chatId userId <;> simp [hin, hread]

/-- A single already-delivered, already-read message. -/
def exReadMsg : Msg :=
  ⟨0, ['a'], getChatId ['a'] ['b'], ['t'], ['x'], 5, true, true, some 6, some 7⟩

/-- A state holding only `exReadMsg`. -/
def exMarked : ServerState := ⟨100, [], [exReadMsg], 1, [], []⟩

/-- Witness for C3: on a concrete state whose only message is already read,
the invariant is preserved by a re-mark and the re-mark itself is a no-op. -/
theorem message_flags_monotone_once_witness :
    (∀ m2 ∈ (step exMarked (Op.markOneRead ['b'] 0)).messages, flagInv m2) ∧
    markMessageAsRead exMarked ['b'] 0 = (exMarked, []) := by
  have h := message_flags_monotone_once exMarked (Op.markOneRead ['b'] 0)
  refine ⟨h.1 ?_, h.2.2 ['b'] 0 exReadMsg rfl rfl⟩
  intro m hm
  rw [show m = exReadMsg from by simpa [exMarked] using hm]
  unfold flagInv
  decide

/-! ## C5: incognito enable schedules deletion at `enabledAt + H` -/

theorem sendMessage_success_schedules (st : ServerState) (s rid : UserId)
    (c : JStr) (t : Nat) (mt : JStr)
    (hf : areUsersFriends st.users s rid = true)
    (hb1 : isUserBlocked st.users s rid = false)
    (hb2 : isUserBlocked st.users rid s = false) :
    (sendMessage st s (some rid) (some c) t mt).1.schedules =
      incognitoSchedules st.schedules st.time st.nextId
        (getIncognitoStatus st.users st.time s rid).2 := by
  simp [sendMessage, hf, hb1, hb2, sentMsg]

theorem getIncognitoStatus_enabled {users : List UserRec} {now : Nat}
    {userId otherUserId : UserId} {u : UserRec} {ic : IncognitoChat}
    (hfu : findUser users userId = some u)
    (hfic : u.incognitoChats.find?
      (fun j => j.chatId == getChatId userId otherUserId) = some ic)
    (hlt : now < ic.expiresAt) :
    getIncognitoStatus users now userId otherUserId =
      (users, ⟨true, some ic.expiresAt⟩) := by
  unfold getIncognitoStatus
  rw [hfu]
  dsimp only
  rw [hfic]
  dsimp only
  rw [if_neg (by omega)]

/-- C5: enabling incognito for the conversation with `otherUserId` for
`durationHours` hours (a) replaces any prior setting of that (user, chat)
pair by one with `expiresAt = now + durationHours·3600000`, (b) schedules a
deletion firing exactly at that `expiresAt` for every message currently in
the conversation, (c) adds no schedule entry firing later than `expiresAt`;
and every message the same user subsequently sends while a setting for that
conversation is present and unexpired gets a deletion schedule firing exactly
at the setting's `expiresAt`.  All scheduled deletions therefore fire at or
before `enabledAt + H` (well within one sweep interval of slack). -/
theorem incognito_enable_schedules_deletion (st : ServerState)
    (userId otherUserId : UserId) (durationHours : Nat)
    (hu : (findUser st.users userId).isSome = true) :
    ((∀ u2 ∈ (toggleIncognito st userId otherUserId true durationHours).1.users,
        u2.id = userId →
        (⟨getChatId userId otherUserId, st.time,
          st.time + durationHours * 60 * 60 * 1000⟩ : IncognitoChat)
            ∈ u2.incognitoChats ∧
        ∀ ic ∈ u2.incognitoChats, ic.chatId = getChatId userId otherUserId →
          ic = ⟨getChatId userId otherUserId, st.time,
            st.time + durationHours * 60 * 60 * 1000⟩) ∧
      (∀ m ∈ st.messages, m.chatId = getChatId userId otherUserId →
        (m.id, st.time + durationHours * 60 * 60 * 1000) ∈
          (toggleIncognito st userId otherUserId true durationHours).1.schedules) ∧
      (∀ sch ∈ (toggleIncognito st userId otherUserId
          true durationHours).1.schedules,
        sch ∈ st.schedules ∨
        sch.2 = st.time + durationHours * 60 * 60 * 1000)) ∧
    (∀ (st2 : ServerState) (c : JStr) (tempId : Nat) (mt : JStr)
        (u : UserRec) (ic : IncognitoChat),
      areUsersFriends st2.users userId otherUserId = true →
      isUserBlocked st2.users userId otherUserId = false →
      isUserBlocked st2.users otherUserId userId = false →
      findUser st2.users userId = some u →
      u.incognitoChats.find?
        (fun j => j.chatId == getChatId userId otherUserId) = some ic →
      st2.time < ic.expiresAt →
      (sendMessage st2 userId (some otherUserId) (some c)
          tempId mt).1.schedules =
        st2.schedules ++ [(st2.nextId, ic.expiresAt)]) := by
  constructor
  · obtain ⟨u0, hu0⟩ := Option.isSome_iff_exists.mp hu
    unfold toggleIncognito
    rw [hu0]
    dsimp only
    refine ⟨?_, ?_, ?_⟩
    · intro u2 hu2 hid
      rcases List.mem_map.mp hu2 with ⟨v, hv, rfl⟩
      dsimp only at hid ⊢
      by_cases hvid : (v.id == userId) = true
      · rw [if_pos hvid] at hid ⊢
        constructor
        · exact List.mem_append.mpr (Or.inr (List.mem_singleton.mpr rfl))
        · intro ic hic hchat
          rcases List.mem_append.mp hic with hic | hic
          · exfalso
            have hne := List.of_mem_filter hic
            simp [hchat] at hne
          · simpa using hic
      · rw [if_neg hvid] at hid
        exact absurd (beq_iff_eq.mpr hid) hvid
    · intro m hm hchat
      refine List.mem_append.mpr (Or.inr (List.mem_map.mpr ⟨m, ?_, ?_⟩))
      · exact List.mem_filter.mpr ⟨hm, by simp [hchat]⟩
      · simp [Nat.add_sub_cancel_left]
    · intro sch hsch
      rcases List.mem_append.mp hsch with h | h
      · exact Or.inl h
      · right
        rcases List.mem_map.mp h with ⟨m, _, rfl⟩
        simp [Nat.add_sub_cancel_left]
  · intro st2 c tempId mt u ic hf hb1 hb2 hfu hfic hlt
    rw [sendMessage_success_schedules st2 userId otherUserId c tempId mt
        hf hb1 hb2, getIncognitoStatus_enabled hfu hfic hlt]
    unfold incognitoSchedules
    dsimp only
    rw [if_pos (Nat.sub_pos_of_lt hlt),
        Nat.add_sub_cancel' (Nat.le_of_lt hlt)]

/-- A message already sitting in the `'a'`/`'b'` conversation. -/
def exIncogMsg : Msg :=
  ⟨0, ['a'], getChatId ['a'] ['b'], ['t'], ['x'], 1, false, false, none, none⟩

/-- Friends `'a'` and `'b'`, one existing message, nobody connected. -/
def exIncog : ServerState :=
  ⟨1000, [⟨['a'], [['b']], [], []⟩, ⟨['b'], [['a']], [], []⟩],
   [exIncogMsg], 1, [], []⟩

/-- The state after `'a'` enables incognito for 2 hours. -/
def exIncogOn : ServerState := (toggleIncognito exIncog ['a'] ['b'] true 2).1

/-- Witness for C5: after a concrete enable (now = 1000, H = 2h) the existing
message is scheduled for deletion at 7201000 = enabledAt + H, and a
subsequent send by the same user is scheduled at the same expiry. -/
theorem incognito_enable_schedules_deletion_witness :
    (0, 1000 + 2 * 60 * 60 * 1000) ∈ exIncogOn.schedules ∧
    (sendMessage exIncogOn ['a'] (some ['b']) (some ['y']) 9 ['t']).1.schedules =
      exIncogOn.schedules ++ [(exIncogOn.nextId, 7201000)] := by
  have h := incognito_enable_schedules_deletion exIncog ['a'] ['b'] 2 (by decide)
  refine ⟨h.1.2.1 exIncogMsg (by decide) rfl, ?_⟩
  exact h.2 exIncogOn ['y'] 9 ['t']
    ⟨['a'], [['b']], [], [⟨getChatId ['a'] ['b'], 1000, 7201000⟩]⟩
    ⟨getChatId ['a'] ['b'], 1000, 7201000⟩
    (by decide) (by decide) (by decide) (by decide) (by decide) (by decide)

/-! ## C6: the periodic sweep enforces expired incognito settings -/

/-- Some user holds an incognito setting for this conversation whose
`expiresAt` has passed. -/
def expiredCovers (users : List UserRec) (now : Nat) (cid : JStr) : Bool :=
  users.any (fun u => u.incognitoChats.any
    (fun ic => decide (ic.expiresAt ≤ now) && cid == ic.chatId))

theorem sweepEntries_msgs (now : Nat) (entries : List IncognitoChat)
    (msgs : List Msg) (evs : List Emit) :
    (sweepEntries now entries msgs evs).1 =
      msgs.filter (fun m => !entries.any
        (fun ic => decide (ic.expiresAt ≤ now) && m.chatId == ic.chatId)) := by
  induction entries generalizing msgs evs with
  | nil => simp [sweepEntries]
  | cons ic rest ih =>
    by_cases hexp : ic.expiresAt ≤ now
    · rw [show sweepEntries now (ic :: rest) msgs evs =
          sweepEntries now rest (msgs.filter (fun m => !(m.chatId == ic.chatId)))
            (evs ++ [⟨Target.room ic.chatId, .chatCleared ic.chatId⟩]) from by
        simp [sweepEntries, hexp]]
      rw [ih, List.filter_filter]
      apply List.filter_congr
      intro m _
      rw [List.any_cons, decide_eq_true hexp, Bool.true_and, Bool.not_or,
        Bool.and_comm]
    · rw [show sweepEntries now (ic :: rest) msgs evs =
          sweepEntries now rest msgs evs from by simp [sweepEntries, hexp]]
      rw [ih]
      apply List.filter_congr
      intro m _
      rw [List.any_cons, decide_eq_false hexp, Bool.false_and, Bool.false_or]

theorem sweepEntries_evs (now : Nat) (entries : List IncognitoChat)
    (msgs : List Msg) (evs : List Emit) :
    (sweepEntries now entries msgs evs).2 =
      evs ++ (entries.filter (fun ic => decide (ic.expiresAt ≤ now))).map
        (fun ic => (⟨Target.room ic.chatId, Event.chatCleared ic.chatId⟩ : Emit)) := by
  induction entries generalizing msgs evs with
  | nil => simp [sweepEntries]
  | cons ic rest ih =>
    by_cases hexp : ic.expiresAt ≤ now
    · rw [show sweepEntries now (ic :: rest) msgs evs =
          sweepEntries now rest (msgs.filter (fun m => !(m.chatId == ic.chatId)))
            (evs ++ [⟨Target.room ic.chatId, .chatCleared ic.chatId⟩]) from by
        simp [sweepEntries, hexp]]
      rw [ih, List.filter_cons_of_pos (by simpa using hexp), List.map_cons,
        List.append_assoc]
      rfl
    · rw [show sweepEntries now (ic :: rest) msgs evs =
          sweepEntries now rest msgs evs from by simp [sweepEntries, hexp]]
      rw [ih, List.filter_cons_of_neg (by simpa using hexp)]

/-- Drop a user's expired incognito settings
(`incognitoChats.filter(ic => expiresAt > now)` followed by `save()`). -/
def pruneExpired (now : Nat) (u : UserRec) : UserRec :=
  { u with
    incognitoChats := u.incognitoChats.filter (fun ic => decide (now < ic.expiresAt)) }

theorem sweepUsers_users (now : Nat) (users : List UserRec)
    (msgs : List Msg) (evs : List Emit) :
    (sweepUsers now users msgs evs).1 = users.map (pruneExpired now) := by
  induction users generalizing msgs evs with
  | nil => rfl
  | cons u rest ih => simp [sweepUsers, pruneExpired, ih]

theorem sweepUsers_msgs (now : Nat) (users : List UserRec)
    (msgs : List Msg) (evs : List Emit) :
    (sweepUsers now users msgs evs).2.1 =
      msgs.filter (fun m => !expiredCovers users now m.chatId) := by
  induction users generalizing msgs evs with
  | nil => simp [sweepUsers, expiredCovers]
  | cons u rest ih =>
    show (sweepUsers now rest (sweepEntries now u.incognitoChats msgs evs).1
      (sweepEntries now u.incognitoChats msgs evs).2).2.1 = _
    rw [ih, sweepEntries_msgs, List.filter_filter]
    apply List.filter_congr
    intro m _
    simp only [expiredCovers, List.any_cons, Bool.not_or]
    rw [Bool.and_comm]

theorem sweepUsers_evs_keeps (now : Nat) (users : List UserRec)
    (msgs : List Msg) (evs : List Emit) :
    ∀ e ∈ evs, e ∈ (sweepUsers now users msgs evs).2.2 := by
  induction users generalizing msgs evs with
  | nil => intro e he; exact he
  | cons u rest ih =>
    intro e he
    show e ∈ (sweepUsers now rest (sweepEntries now u.incognitoChats msgs evs).1
      (sweepEntries now u.incognitoChats msgs evs).2).2.2
    refine ih _ _ e ?_
    rw [sweepEntries_evs]
    exact List.mem_append.mpr (Or.inl he)

theorem sweepUsers_evs_mem (now : Nat) (users : List UserRec)
    (msgs : List Msg) (evs : List Emit) :
    ∀ u ∈ users, ∀ ic ∈ u.incognitoChats, ic.expiresAt ≤ now →
      (⟨Target.room ic.chatId, Event.chatCleared ic.chatId⟩ : Emit) ∈
        (sweepUsers now users msgs evs).2.2 := by
  induction users generalizing msgs evs with
  | nil => intro u hu; cases hu
  | cons v rest ih =>
    intro u hu ic hic hexp
    rcases List.mem_cons.mp hu with rfl | hu
    · show _ ∈ (sweepUsers now rest (sweepEntries now u.incognitoChats msgs evs).1
        (sweepEntries now u.incognitoChats msgs evs).2).2.2
      refine sweepUsers_evs_keeps now rest _ _ _ ?_
      rw [sweepEntries_evs]
      refine List.mem_append.mpr (Or.inr (List.mem_map.mpr ⟨ic, ?_, rfl⟩))
      exact List.mem_filter.mpr ⟨hic, by simpa using hexp⟩
    · exact ih _ _ u hu ic hic hexp

theorem sweepEntries_no_expired {now : Nat} {entries : List IncognitoChat}
    {msgs : List Msg} {evs : List Emit}
    (h : ∀ ic ∈ entries, now < ic.expiresAt) :
    sweepEntries now entries msgs evs = (msgs, evs) := by
  induction entries with
  | nil => rfl
  | cons ic rest ih =>
    rw [show sweepEntries now (ic :: rest) msgs evs =
        sweepEntries now rest msgs evs from by
      simp [sweepEntries, Nat.not_le.mpr (h ic (List.mem_cons_self ic rest))]]
    exact ih fun j hj => h j (List.mem_cons_of_mem ic hj)

theorem sweepUsers_no_expired {now : Nat} {users : List UserRec}
    {msgs : List Msg} {evs : List Emit}
    (h : ∀ u ∈ users, ∀ ic ∈ u.incognitoChats, now < ic.expiresAt) :
    sweepUsers now users msgs evs = (users, msgs, evs) := by
  induction users with
  | nil => rfl
  | cons u rest ih =>
    have h1 : sweepEntries now u.incognitoChats msgs evs = (msgs, evs) :=
      sweepEntries_no_expired (h u (List.mem_cons_self u rest))
    have h2 : sweepUsers now rest msgs evs = (rest, msgs, evs) :=
      ih fun v hv => h v (List.mem_cons_of_mem u hv)
    have h3 : u.incognitoChats.filter
        (fun ic => decide (now < ic.expiresAt)) = u.incognitoChats :=
      List.filter_eq_self.mpr fun ic hic =>
        decide_eq_true (h u (List.mem_cons_self u rest) ic hic)
    simp only [sweepUsers, h1, h2, h3]

/-- When nothing is expired any more, the cleanup pass is a complete no-op:
in particular a second sweep that finds the target messages already deleted
succeeds and changes nothing. -/
theorem cleanup_no_expired {st : ServerState}
    (h : ∀ u ∈ st.users, ∀ ic ∈ u.incognitoChats, st.time < ic.expiresAt) :
    cleanupExpiredIncognitoChats st = (st, []) := by
  unfold cleanupExpiredIncognitoChats
  rw [sweepUsers_no_expired h]

/-- C6: one run of the periodic sweep (armed every 5 minutes =
`sweepIntervalMs` ms): for every user and every incognito setting whose
`expiresAt` has passed, all messages of that conversation are deleted and a
`chatCleared` notification is emitted to the conversation room; expired
settings are removed from each user's record while unexpired ones are kept
verbatim; messages of conversations not covered by an expired setting
survive; and a second sweep in the same instant — which finds the target
messages already deleted — changes nothing and emits nothing (deletion of
already-gone messages is a no-op, not an error). -/
theorem sweep_enforces_expired_settings (st : ServerState) :
    (cleanupExpiredIncognitoChats st).1.users =
      st.users.map (pruneExpired st.time) ∧
    (cleanupExpiredIncognitoChats st).1.messages =
      st.messages.filter (fun m => !expiredCovers st.users st.time m.chatId) ∧
    (∀ u ∈ st.users, ∀ ic ∈ u.incognitoChats, ic.expiresAt ≤ st.time →
      (⟨Target.room ic.chatId, Event.chatCleared ic.chatId⟩ : Emit) ∈
        (cleanupExpiredIncognitoChats st).2) ∧
    (∀ m ∈ st.messages, expiredCovers st.users st.time m.chatId = false →
      m ∈ (cleanupExpiredIncognitoChats st).1.messages) ∧
    cleanupExpiredIncognitoChats (cleanupExpiredIncognitoChats st).1 =
      ((cleanupExpiredIncognitoChats st).1, []) ∧
    sweepIntervalMs = 300000 := by
  refine ⟨sweepUsers_users st.time st.users st.messages [],
    sweepUsers_msgs st.time st.users st.messages [],
    fun u hu ic hic hexp =>
      sweepUsers_evs_mem st.time st.users st.messages [] u hu ic hic hexp,
    ?_, ?_, rfl⟩
  · intro m hm hcov
    rw [show (cleanupExpiredIncognitoChats st).1.messages =
      st.messages.filter (fun m => !expiredCovers st.users st.time m.chatId) from
      sweepUsers_msgs st.time st.users st.messages []]
    exact List.mem_filter.mpr ⟨hm, by simp [hcov]⟩
  · have hall : ∀ u ∈ (cleanupExpiredIncognitoChats st).1.users,
        ∀ ic ∈ u.incognitoChats, (cleanupExpiredIncognitoChats st).1.time
          < ic.expiresAt := by
      rw [show (cleanupExpiredIncognitoChats st).1.users =
        st.users.map (pruneExpired st.time) from
        sweepUsers_users st.time st.users st.messages []]
      intro u hu ic hic
      rcases List.mem_map.mp hu with ⟨v, _, rfl⟩
      have hf := List.of_mem_filter hic
      simpa using hf
    exact cleanup_no_expired hall

/-- A message in the unrelated `'a'`/`'c'` conversation. -/
def exOtherMsg : Msg :=
  ⟨1, ['a'], getChatId ['a'] ['c'], ['t'], ['x'], 2, false, false, none, none⟩

/-- `'a'` holds an incognito setting for the `'a'`/`'b'` chat that expired at
500, now is 10000; one message in that chat and one in another chat. -/
def exExpired : ServerState :=
  ⟨10000,
   [⟨['a'], [['b']], [], [⟨getChatId ['a'] ['b'], 0, 500⟩]⟩,
    ⟨['b'], [['a']], [], []⟩],
   [exIncogMsg, exOtherMsg], 2, [], []⟩

/-- Witness for C6: the expired `'a'`/`'b'` setting produces a `chatCleared`
broadcast and the unrelated conversation's message survives the sweep. -/
theorem sweep_enforces_expired_settings_witness :
    (⟨Target.room (getChatId ['a'] ['b']),
      Event.chatCleared (getChatId ['a'] ['b'])⟩ : Emit) ∈
      (cleanupExpiredIncognitoChats exExpired).2 ∧
    exOtherMsg ∈ (cleanupExpiredIncognitoChats exExpired).1.messages := by
  have h := sweep_enforces_expired_settings exExpired
  exact ⟨h.2.2.1 ⟨['a'], [['b']], [], [⟨getChatId ['a'] ['b'], 0, 500⟩]⟩
      (by decide) ⟨getChatId ['a'] ['b'], 0, 500⟩ (by decide) (by decide),
    h.2.2.2.1 exOtherMsg (by decide) (by decide)⟩

end Lovebirds
